import Mathlib

/-!
Shallow embedding of `src/src/hooks/useGoogleDataEnrichment.ts`.

The hook holds a piece of mutable progress state and exposes two
operations: `enrichMissingData` (a guarded batch-dispatch run) and
`getEnrichmentStats` (a pure stats computation over two store queries).

The run is modelled as a function from an environment (the store's
contents, the two queries' failure flags, and the outcome of each
per-candidate enrichment invocation) and a starting progress state to a
`RunOutput`: the full ordered list of observation points of the progress
state (one entry per `setProgress` update, plus the initial state), the
list of externally visible events (store queries, enrichment
invocations, inter-batch delays), and the final state.  Concurrent
updates inside a batch are functional increments applied to the shared
state; the trace fixes the program-order interleaving (each candidate's
updates in batch order), which realises the same final counts as any
interleaving since every update is an independent increment.
-/

namespace Enrichment

/-- Progress state of the enricher: mirrors the `EnrichmentProgress`
interface of the source (total, processed, errors, isRunning). -/
structure EnrichmentProgress where
  total : Nat
  processed : Nat
  errors : Nat
  isRunning : Bool
  deriving Repr, DecidableEq

/-- A row of the `Förskolor` table as consumed by the hook, together
with the enrichment status that lives in the separate
`preschool_google_data` collection (`hasGoogleData`) and the age in days
of that stored enrichment data (`googleDataAgeDays = none` when there is
no stored data).  The queries in the source select only
id/Namn/Adress/Latitud/Longitud; the extra two fields model the store
facts the spec's candidate-selection claims are about. -/
structure Forskola where
  id : Nat
  namn : String
  adress : String
  latitud : Option Int
  longitud : Option Int
  hasGoogleData : Bool
  googleDataAgeDays : Option Nat
  deriving Repr, DecidableEq

/-- First store query (source lines 31-43): rows with `Latitud` and
`Longitud` non-null and `id` not in the literal empty list, limited to
25 rows. -/
def queryMissingData (store : List Forskola) : List Forskola :=
  (store.filter fun r =>
    r.latitud.isSome && r.longitud.isSome && !(([] : List Nat).contains r.id)).take 25

/-- Second store query (source lines 46-58): rows with `Latitud` and
`Longitud` non-null and `id` in the literal empty list, limited to 25
rows. -/
def queryStaleData (store : List Forskola) : List Forskola :=
  (store.filter fun r =>
    r.latitud.isSome && r.longitud.isSome && (([] : List Nat).contains r.id)).take 25

/-- Outcome of one enrichment invocation for one candidate: the call
resolves with no error, resolves with a reported error (`enrichError`
set), or throws. -/
inductive CallOutcome where
  | success
  | reportedError
  | thrown
  deriving Repr, DecidableEq

/-- Whether an outcome counts as a failed invocation. -/
def CallOutcome.isFail : CallOutcome → Bool
  | .success => false
  | .reportedError => true
  | .thrown => true

/-- The `setProgress` updates one candidate's completion applies, in
program order (source lines 89-102): on success one `processed`
increment; on a reported error an `errors` increment followed by a
separate `processed` increment; on a thrown error a single combined
update incrementing both. -/
def outcomeUpdates : CallOutcome → List (EnrichmentProgress → EnrichmentProgress)
  | .success =>
      [fun p => { p with processed := p.processed + 1 }]
  | .reportedError =>
      [fun p => { p with errors := p.errors + 1 },
       fun p => { p with processed := p.processed + 1 }]
  | .thrown =>
      [fun p => { p with processed := p.processed + 1, errors := p.errors + 1 }]

/-- Externally visible events of a run: the two candidate-fetch
queries, the start of a batch (with its size), one enrichment invocation
per candidate (with the candidate's id), and the inter-batch delay (with
its duration in ms). -/
inductive RunEvent where
  | queryMissing
  | queryStale
  | batchStart (size : Nat)
  | invoke (id : Nat)
  | delay (ms : Nat)
  deriving Repr, DecidableEq

/-- Environment a run executes against: the store contents, whether each
fetch query fails (`error1`/`error2` set on the reply), and the outcome
of the enrichment invocation for the candidate at each global index. -/
structure RunEnv where
  store : List Forskola
  error1 : Bool
  error2 : Bool
  outcome : Nat → CallOutcome

/-- State updates contributed by one batch: the per-candidate update
blocks of its members, in batch order (the chosen interleaving of the
batch's concurrent completions). -/
def batchUpdates (outcome : Nat → CallOutcome) (batch : List (Nat × Forskola)) :
    List (EnrichmentProgress → EnrichmentProgress) :=
  (batch.map fun x => outcomeUpdates (outcome x.1)).flatten

/-- Events contributed by one batch: a `batchStart` with the batch size
followed by one `invoke` per member. -/
def batchEvents (batch : List (Nat × Forskola)) : List RunEvent :=
  RunEvent.batchStart batch.length :: batch.map fun x => RunEvent.invoke x.2.id

/-- The batch loop of the source (lines 72-110): consume candidates in
consecutive slices of `batchSize = 3`; after a batch, emit a 2000 ms
delay exactly when more candidates remain (`i + batchSize <
preschoolsToEnrich.length`).  Returns the state updates and the events,
in order. -/
def loopRun (outcome : Nat → CallOutcome) :
    List (Nat × Forskola) →
      List (EnrichmentProgress → EnrichmentProgress) × List RunEvent
  | [] => ([], [])
  | [a] => (batchUpdates outcome [a], batchEvents [a])
  | [a, b] => (batchUpdates outcome [a, b], batchEvents [a, b])
  | a :: b :: c :: rest =>
      let prev := loopRun outcome rest
      (batchUpdates outcome [a, b, c] ++ prev.1,
        batchEvents [a, b, c] ++
          (if rest = [] then [] else [RunEvent.delay 2000]) ++ prev.2)

/-- Apply a list of state updates in order. -/
def applyAll (st : EnrichmentProgress)
    (fs : List (EnrichmentProgress → EnrichmentProgress)) : EnrichmentProgress :=
  fs.foldl (fun s f => f s) st

/-- The states observed after each update in a list, in order (does not
include the starting state). -/
def traceFrom (st : EnrichmentProgress) :
    List (EnrichmentProgress → EnrichmentProgress) → List EnrichmentProgress
  | [] => []
  | f :: fs => f st :: traceFrom (f st) fs

/-- Result of one call to the run routine: every observation point of
the progress state in order (starting with the state before the call),
the emitted events, and the final state (the last observation point). -/
structure RunOutput where
  states : List EnrichmentProgress
  events : List RunEvent
  final : EnrichmentProgress
  deriving Repr

/-- The run routine `enrichMissingData` (source lines 19-118).
Guard on `isRunning`; set the running flag and zero `processed`/`errors`
(leaving `total`); run the two fetch queries; on either query error
return (the `finally` still clears the running flag); otherwise
concatenate the two result lists, record `total`, and run the batch
loop; finally clear the running flag. -/
def enrichMissingData (env : RunEnv) (st : EnrichmentProgress) : RunOutput :=
  if st.isRunning then
    { states := [st], events := [], final := st }
  else
    let st1 : EnrichmentProgress :=
      { st with isRunning := true, processed := 0, errors := 0 }
    let data1 : Option (List Forskola) :=
      if env.error1 then none else some (queryMissingData env.store)
    let data2 : Option (List Forskola) :=
      if env.error2 then none else some (queryStaleData env.store)
    let fetchEvents : List RunEvent := [RunEvent.queryMissing, RunEvent.queryStale]
    if env.error1 || env.error2 then
      let fin : EnrichmentProgress := { st1 with isRunning := false }
      { states := [st, st1, fin], events := fetchEvents, final := fin }
    else
      let preschools : List Forskola := data1.getD [] ++ data2.getD []
      let st2 : EnrichmentProgress := { st1 with total := preschools.length }
      let run := loopRun env.outcome preschools.enum
      let fin : EnrichmentProgress := { applyAll st2 run.1 with isRunning := false }
      { states := st :: st1 :: st2 :: traceFrom st2 run.1 ++ [fin],
        events := fetchEvents ++ run.2,
        final := fin }

/-- Consecutive chunks of size 3, mirroring `slice(i, i + 3)` of the
source's loop. -/
def chunk3 {α : Type} : List α → List (List α)
  | [] => []
  | [a] => [[a]]
  | [a, b] => [[a, b]]
  | a :: b :: c :: rest => [a, b, c] :: chunk3 rest

/-- The batch sizes announced in an event list. -/
def batchSizes (evs : List RunEvent) : List Nat :=
  evs.filterMap fun e =>
    match e with
    | RunEvent.batchStart n => some n
    | _ => none

/-- The number of delay events in an event list. -/
def delayCount (evs : List RunEvent) : Nat :=
  (evs.filter fun e =>
    match e with
    | RunEvent.delay _ => true
    | _ => false).length

/-- The ids passed to enrichment invocations in an event list, in order. -/
def invokedIds (evs : List RunEvent) : List Nat :=
  evs.filterMap fun e =>
    match e with
    | RunEvent.invoke i => some i
    | _ => none

/-- Whether an event list contains an enrichment invocation. -/
def hasInvoke (evs : List RunEvent) : Bool :=
  evs.any fun e =>
    match e with
    | RunEvent.invoke _ => true
    | _ => false

/-- The number of failed invocations among an indexed candidate list. -/
def failCount (outcome : Nat → CallOutcome) (cands : List (Nat × Forskola)) : Nat :=
  (cands.filter fun x => (outcome x.1).isFail).length

/-- The concatenated result of the two candidate-fetch queries
(`preschools` of the source, line 65), in the branch where neither query
fails. -/
def fetchedPreschools (env : RunEnv) : List Forskola :=
  queryMissingData env.store ++ queryStaleData env.store

/-- The fetched candidates paired with their global index. -/
def fetchedCandidates (env : RunEnv) : List (Nat × Forskola) :=
  (fetchedPreschools env).enum

/-- The progress state right after the run start update (source line
23): running flag set, `processed` and `errors` zeroed, `total` kept. -/
def startState (st : EnrichmentProgress) : EnrichmentProgress :=
  { st with isRunning := true, processed := 0, errors := 0 }

/-- The progress state right after `total` is recorded (source line
69). -/
def totalState (env : RunEnv) (st : EnrichmentProgress) : EnrichmentProgress :=
  { startState st with total := (fetchedPreschools env).length }

/-- Stats object returned by `getEnrichmentStats`: total eligible count,
enriched count, and rounded coverage percentage. -/
structure EnrichmentStats where
  total : Nat
  enriched : Nat
  percentage : Int
  deriving Repr, DecidableEq

/-- Environment `getEnrichmentStats` executes against: the id list each
of the two count queries returns (`none` models a reply whose `data` is
null, i.e. a query failure reported in-band), and whether the body
throws an exception (caught by the `catch` of the source). -/
structure StatsEnv where
  totalData : Option (List Nat)
  enrichedData : Option (List Nat)
  throws : Bool

/-- JavaScript `Math.round` on an exact rational: floor of `q + 1/2`
(round half toward positive infinity). -/
def jsRound (q : ℚ) : ℤ := ⌊q + 1 / 2⌋

/-- The stats routine `getEnrichmentStats` (source lines 120-141): on a
thrown exception return the zero object; otherwise `total` and
`enriched` are the returned rows' counts (null data counting as 0), and
`percentage` is `Math.round(enriched / total * 100)` guarded by the
truthiness of `total` (0 when `total` is 0 or the total query returned
null). -/
def getEnrichmentStats (env : StatsEnv) : EnrichmentStats :=
  if env.throws then
    { total := 0, enriched := 0, percentage := 0 }
  else
    let t : Nat := (env.totalData.getD []).length
    let e : Nat := (env.enrichedData.getD []).length
    { total := t, enriched := e,
      percentage := if t = 0 then 0 else jsRound ((e : ℚ) / (t : ℚ) * 100) }

/-- A store row with coordinates present and no stored enrichment
data. -/
def rowMissing : Forskola :=
  { id := 0, namn := "Solgläntan", adress := "Storgatan 1",
    latitud := some 59, longitud := some 18,
    hasGoogleData := false, googleDataAgeDays := none }

/-- A store row with coordinates present whose stored enrichment data is
8 days old (stale under the 7-day threshold). -/
def rowStale : Forskola :=
  { rowMissing with id := 1, hasGoogleData := true, googleDataAgeDays := some 8 }

/-- A store row with coordinates present that already has fresh
enrichment data (1 day old). -/
def rowEnriched : Forskola :=
  { rowMissing with id := 2, hasGoogleData := true, googleDataAgeDays := some 1 }

/-- The all-zero initial progress state of the hook (source lines
12-17). -/
def initialProgress : EnrichmentProgress :=
  { total := 0, processed := 0, errors := 0, isRunning := false }

/-- The state updates of all candidates flattened into one sequence, in
candidate order.  The batch loop contributes exactly this sequence,
since batching never reorders the per-candidate update blocks. -/
def flatUpdates (outcome : Nat → CallOutcome) (cands : List (Nat × Forskola)) :
    List (EnrichmentProgress → EnrichmentProgress) :=
  (cands.map fun x => outcomeUpdates (outcome x.1)).flatten

/-- A store of 7 rows, all with coordinates and no enrichment data. -/
def store7 : List Forskola :=
  (List.range 7).map fun i => { rowMissing with id := i }

/-- A run environment with 7 candidates whose invocations all succeed. -/
def envAllSuccess7 : RunEnv :=
  { store := store7, error1 := false, error2 := false,
    outcome := fun _ => CallOutcome.success }

/-- A run environment with a single candidate whose invocation reports
an error without throwing. -/
def envOneReportedError : RunEnv :=
  { store := [rowMissing], error1 := false, error2 := false,
    outcome := fun _ => CallOutcome.reportedError }

/-- A run environment with 4 candidates where the invocation at index 1
reports an error and the one at index 3 throws. -/
def envMixed4 : RunEnv :=
  { store := (List.range 4).map fun i => { rowMissing with id := i },
    error1 := false, error2 := false,
    outcome := fun i =>
      if i = 1 then CallOutcome.reportedError
      else if i = 3 then CallOutcome.thrown
      else CallOutcome.success }

/-- A run environment whose first candidate-fetch query fails. -/
def envFetchFail : RunEnv :=
  { store := store7, error1 := true, error2 := false,
    outcome := fun _ => CallOutcome.success }

/-- A progress state with the running flag set. -/
def runningProgress : EnrichmentProgress :=
  { total := 5, processed := 2, errors := 1, isRunning := true }

/-- A stats environment where both queries answer: 4 eligible rows, 1
enriched row. -/
def statsEnvOk : StatsEnv :=
  { totalData := some [0, 1, 2, 3], enrichedData := some [0], throws := false }

/-- A stats environment where both queries answer with zero rows. -/
def statsEnvZero : StatsEnv :=
  { totalData := some [], enrichedData := some [], throws := false }

/-- A stats environment where the total query answers 5 rows but the
enriched-count query fails in-band (null data). -/
def statsEnvEnrichedFail : StatsEnv :=
  { totalData := some [0, 1, 2, 3, 4], enrichedData := none, throws := false }

/-- A stats environment where the body throws. -/
def statsEnvThrown : StatsEnv :=
  { totalData := none, enrichedData := none, throws := true }

theorem applyAll_nil (st : EnrichmentProgress) : applyAll st [] = st := rfl

theorem applyAll_append (st : EnrichmentProgress)
    (l1 l2 : List (EnrichmentProgress → EnrichmentProgress)) :
    applyAll st (l1 ++ l2) = applyAll (applyAll st l1) l2 :=
  List.foldl_append _ _ _ _

theorem traceFrom_append (st : EnrichmentProgress)
    (l1 l2 : List (EnrichmentProgress → EnrichmentProgress)) :
    traceFrom st (l1 ++ l2) = traceFrom st l1 ++ traceFrom (applyAll st l1) l2 := by
  induction l1 generalizing st with
  | nil => simp [traceFrom, applyAll]
  | cons f fs ih =>
      have h1 : traceFrom st (f :: (fs ++ l2)) = f st :: traceFrom (f st) (fs ++ l2) := rfl
      have h2 : traceFrom st (f :: fs) = f st :: traceFrom (f st) fs := rfl
      have h3 : applyAll st (f :: fs) = applyAll (f st) fs := rfl
      rw [List.cons_append, h1, ih, h2, h3, List.cons_append]

/-- The update component of the batch loop is the flat per-candidate
update sequence. -/
theorem loopRun_fst (o : Nat → CallOutcome) :
    ∀ cands : List (Nat × Forskola), (loopRun o cands).1 = flatUpdates o cands := by
  intro cands
  induction cands using chunk3.induct with
  | case1 => simp [loopRun, flatUpdates]
  | case2 a => simp [loopRun, flatUpdates, batchUpdates]
  | case3 a b => simp [loopRun, flatUpdates, batchUpdates]
  | case4 a b c rest ih => simp [loopRun, flatUpdates, batchUpdates, ih]

theorem failCount_nil (o : Nat → CallOutcome) : failCount o [] = 0 := rfl

theorem failCount_cons (o : Nat → CallOutcome) (x : Nat × Forskola)
    (rest : List (Nat × Forskola)) :
    failCount o (x :: rest) =
      (if (o x.1).isFail then 1 else 0) + failCount o rest := by
  simp only [failCount, List.filter_cons]
  by_cases h : (o x.1).isFail
  · simp [h]; omega
  · simp [h]

theorem failCount_le (o : Nat → CallOutcome) (cands : List (Nat × Forskola)) :
    failCount o cands ≤ cands.length :=
  List.length_filter_le _ _

/-- Folding the flat update sequence adds the candidate count to
`processed` and the failure count to `errors`, and touches nothing
else. -/
theorem applyAll_flat (o : Nat → CallOutcome) :
    ∀ (cands : List (Nat × Forskola)) (st : EnrichmentProgress),
      applyAll st (flatUpdates o cands) =
        { st with processed := st.processed + cands.length,
                  errors := st.errors + failCount o cands } := by
  intro cands
  induction cands with
  | nil => intro st; simp [flatUpdates, applyAll, failCount]
  | cons x rest ih =>
      intro st
      have hsplit : flatUpdates o (x :: rest) =
          outcomeUpdates (o x.1) ++ flatUpdates o rest := by
        simp [flatUpdates]
      rw [hsplit, applyAll_append, ih, failCount_cons]
      cases hx : o x.1 <;>
        simp [outcomeUpdates, applyAll, CallOutcome.isFail, hx] <;> omega

/-- Every state observed while folding the flat update sequence
satisfies `processed ≤ total` and `errors ≤ processed + 1`, provided the
starting state satisfies `errors ≤ processed` and has room for all
remaining candidates. -/
theorem flatTrace_invariant (o : Nat → CallOutcome) :
    ∀ (cands : List (Nat × Forskola)) (st : EnrichmentProgress),
      st.errors ≤ st.processed →
      st.processed + cands.length ≤ st.total →
      ∀ p ∈ traceFrom st (flatUpdates o cands),
        p.processed ≤ p.total ∧ p.errors ≤ p.processed + 1 := by
  intro cands
  induction cands with
  | nil => intro st _ _ p hp; simp [flatUpdates, traceFrom] at hp
  | cons x rest ih =>
      intro st hep hpt p hp
      have hsplit : flatUpdates o (x :: rest) =
          outcomeUpdates (o x.1) ++ flatUpdates o rest := by
        simp [flatUpdates]
      rw [hsplit, traceFrom_append, List.mem_append] at hp
      have hlen : st.processed + rest.length + 1 ≤ st.total := by
        simp only [List.length_cons] at hpt; omega
      cases hx : o x.1 with
      | success =>
          rw [hx] at hp
          have htr : traceFrom st (outcomeUpdates CallOutcome.success) =
              [{ st with processed := st.processed + 1 }] := rfl
          have hap : applyAll st (outcomeUpdates CallOutcome.success) =
              { st with processed := st.processed + 1 } := rfl
          rw [htr, hap] at hp
          rcases hp with hp | hp
          · rcases List.mem_singleton.mp hp with rfl
            refine ⟨?_, ?_⟩ <;> simp <;> omega
          · exact ih { st with processed := st.processed + 1 }
              (by simp; omega) (by simp; omega) p hp
      | reportedError =>
          rw [hx] at hp
          have htr : traceFrom st (outcomeUpdates CallOutcome.reportedError) =
              [{ st with errors := st.errors + 1 },
               { st with errors := st.errors + 1, processed := st.processed + 1 }] := rfl
          have hap : applyAll st (outcomeUpdates CallOutcome.reportedError) =
              { st with errors := st.errors + 1, processed := st.processed + 1 } := rfl
          rw [htr, hap] at hp
          rcases hp with hp | hp
          · simp only [List.mem_cons, List.not_mem_nil, or_false] at hp
            rcases hp with rfl | rfl
            · refine ⟨?_, ?_⟩ <;> simp <;> omega
            · refine ⟨?_, ?_⟩ <;> simp <;> omega
          · exact ih { st with errors := st.errors + 1, processed := st.processed + 1 }
              (by simp; omega) (by simp; omega) p hp
      | thrown =>
          rw [hx] at hp
          have htr : traceFrom st (outcomeUpdates CallOutcome.thrown) =
              [{ st with processed := st.processed + 1, errors := st.errors + 1 }] := rfl
          have hap : applyAll st (outcomeUpdates CallOutcome.thrown) =
              { st with processed := st.processed + 1, errors := st.errors + 1 } := rfl
          rw [htr, hap] at hp
          rcases hp with hp | hp
          · rcases List.mem_singleton.mp hp with rfl
            refine ⟨?_, ?_⟩ <;> simp <;> omega
          · exact ih { st with processed := st.processed + 1, errors := st.errors + 1 }
              (by simp; omega) (by simp; omega) p hp

theorem chunk3_flatten {α : Type} : ∀ l : List α, (chunk3 l).flatten = l := by
  intro l
  induction l using chunk3.induct with
  | case1 => simp [chunk3]
  | case2 a => simp [chunk3]
  | case3 a b => simp [chunk3]
  | case4 a b c rest ih => simp [chunk3, ih]

theorem chunk3_ne_nil {α : Type} : ∀ l : List α, l ≠ [] → chunk3 l ≠ []
  | [], h => absurd rfl h
  | [_], _ => by simp [chunk3]
  | [_, _], _ => by simp [chunk3]
  | _ :: _ :: _ :: _, _ => by simp [chunk3]

theorem chunk3_mem_bounds {α : Type} :
    ∀ l : List α, ∀ b ∈ chunk3 l, b ≠ [] ∧ b.length ≤ 3 := by
  intro l
  induction l using chunk3.induct with
  | case1 => intro b hb; simp [chunk3] at hb
  | case2 a => intro b hb; simp [chunk3] at hb; subst hb; simp
  | case3 a b' => intro b hb; simp [chunk3] at hb; subst hb; simp
  | case4 a b' c rest ih =>
      intro b hb
      simp only [chunk3, List.mem_cons] at hb
      rcases hb with rfl | hb
      · simp
      · exact ih b hb

theorem chunk3_dropLast_full {α : Type} :
    ∀ l : List α, ∀ b ∈ (chunk3 l).dropLast, b.length = 3 := by
  intro l
  induction l using chunk3.induct with
  | case1 => intro b hb; simp [chunk3] at hb
  | case2 a => intro b hb; simp [chunk3] at hb
  | case3 a b' => intro b hb; simp [chunk3] at hb
  | case4 a b' c rest ih =>
      intro b hb
      by_cases hrest : rest = []
      · subst hrest; simp [chunk3] at hb
      · rw [show chunk3 (a :: b' :: c :: rest) = [a, b', c] :: chunk3 rest from rfl,
            List.dropLast_cons_of_ne_nil (chunk3_ne_nil rest hrest)] at hb
        rcases List.mem_cons.mp hb with rfl | hb
        · rfl
        · exact ih b hb

theorem batchSizes_append (l1 l2 : List RunEvent) :
    batchSizes (l1 ++ l2) = batchSizes l1 ++ batchSizes l2 := by
  simp [batchSizes]

theorem delayCount_append (l1 l2 : List RunEvent) :
    delayCount (l1 ++ l2) = delayCount l1 + delayCount l2 := by
  simp [delayCount]

theorem invokedIds_append (l1 l2 : List RunEvent) :
    invokedIds (l1 ++ l2) = invokedIds l1 ++ invokedIds l2 := by
  simp [invokedIds]

theorem batchSizes_batchEvents (batch : List (Nat × Forskola)) :
    batchSizes (batchEvents batch) = [batch.length] := by
  simp only [batchEvents, batchSizes, List.filterMap_cons]
  induction batch with
  | nil => rfl
  | cons x rest ih => simp

theorem delayCount_batchEvents (batch : List (Nat × Forskola)) :
    delayCount (batchEvents batch) = 0 := by
  rw [delayCount, List.length_eq_zero, List.filter_eq_nil_iff]
  intro e he
  simp only [batchEvents, List.mem_cons] at he
  rcases he with rfl | he
  · simp
  · rcases List.mem_map.mp he with ⟨x, _, rfl⟩
    simp

theorem invokedIds_batchEvents (batch : List (Nat × Forskola)) :
    invokedIds (batchEvents batch) = batch.map fun x => x.2.id := by
  simp only [batchEvents, invokedIds, List.filterMap_cons]
  induction batch with
  | nil => rfl
  | cons x rest ih => simpa using ih

/-- The batch sizes the loop announces are the lengths of the
consecutive 3-chunks of the candidate list. -/
theorem loopRun_batchSizes (o : Nat → CallOutcome) :
    ∀ cands : List (Nat × Forskola),
      batchSizes (loopRun o cands).2 = (chunk3 cands).map List.length := by
  intro cands
  induction cands using chunk3.induct with
  | case1 => simp [loopRun, chunk3, batchSizes]
  | case2 a => simp [loopRun, chunk3, batchSizes_batchEvents]
  | case3 a b => simp [loopRun, chunk3, batchSizes_batchEvents]
  | case4 a b c rest ih =>
      simp only [loopRun, chunk3, List.map_cons, batchSizes_append,
        batchSizes_batchEvents, List.cons_append, List.nil_append]
      rw [show batchSizes (if rest = [] then [] else [RunEvent.delay 2000]) = [] from by
        by_cases h : rest = [] <;> simp [h, batchSizes]]
      simpa using ih

/-- The loop emits one delay after every batch except the last. -/
theorem loopRun_delayCount (o : Nat → CallOutcome) :
    ∀ cands : List (Nat × Forskola),
      delayCount (loopRun o cands).2 = (chunk3 cands).length - 1 := by
  intro cands
  induction cands using chunk3.induct with
  | case1 => simp [loopRun, chunk3, delayCount]
  | case2 a => simp [loopRun, chunk3, delayCount_batchEvents]
  | case3 a b => simp [loopRun, chunk3, delayCount_batchEvents]
  | case4 a b c rest ih =>
      simp only [loopRun, chunk3, delayCount_append, delayCount_batchEvents,
        List.length_cons]
      by_cases h : rest = []
      · subst h; simp [chunk3, loopRun, delayCount]
      · have hne := chunk3_ne_nil rest h
        have hlen : 1 ≤ (chunk3 rest).length := by
          cases hc : chunk3 rest with
          | nil => exact absurd hc hne
          | cons y ys => simp
        rw [if_neg h]
        simp only [delayCount, List.filter_cons, List.filter_nil] at ih ⊢
        simp [ih]
        omega

/-- The loop invokes the enrichment call once per candidate, in list
order. -/
theorem loopRun_invokedIds (o : Nat → CallOutcome) :
    ∀ cands : List (Nat × Forskola),
      invokedIds (loopRun o cands).2 = cands.map fun x => x.2.id := by
  intro cands
  induction cands using chunk3.induct with
  | case1 => simp [loopRun, invokedIds]
  | case2 a => simp [loopRun, invokedIds_batchEvents]
  | case3 a b => simp [loopRun, invokedIds_batchEvents]
  | case4 a b c rest ih =>
      simp only [loopRun, invokedIds_append, invokedIds_batchEvents, List.map_cons]
      rw [show invokedIds (if rest = [] then [] else [RunEvent.delay 2000]) = [] from by
        by_cases h : rest = [] <;> simp [h, invokedIds]]
      simpa using ih

/-- Every delay the loop emits is the fixed 2000 ms inter-batch delay. -/
theorem loopRun_delay_ms (o : Nat → CallOutcome) :
    ∀ cands : List (Nat × Forskola),
      ∀ ms, RunEvent.delay ms ∈ (loopRun o cands).2 → ms = 2000 := by
  intro cands
  have hbatch : ∀ (batch : List (Nat × Forskola)) (ms : Nat),
      RunEvent.delay ms ∉ batchEvents batch := by
    intro batch ms hmem
    simp only [batchEvents, List.mem_cons] at hmem
    rcases hmem with h | h
    · exact RunEvent.noConfusion h
    · rcases List.mem_map.mp h with ⟨x, _, hx⟩
      exact RunEvent.noConfusion hx
  induction cands using chunk3.induct with
  | case1 => intro ms h; simp [loopRun] at h
  | case2 a => intro ms h; exact absurd h (hbatch [a] ms)
  | case3 a b => intro ms h; exact absurd h (hbatch [a, b] ms)
  | case4 a b c rest ih =>
      intro ms h
      simp only [loopRun, List.mem_append] at h
      rcases h with (h | h) | h
      · exact absurd h (hbatch [a, b, c] ms)
      · by_cases hr : rest = []
        · simp [hr] at h
        · simp only [if_neg hr, List.mem_singleton] at h
          injection h
      · exact ih ms h

theorem filter_fst_length {α : Type} (p : Nat → Bool) :
    ∀ l : List (Nat × α),
      (l.filter fun x => p x.1).length = ((l.map Prod.fst).filter p).length := by
  intro l
  induction l with
  | nil => rfl
  | cons x rest ih => by_cases h : p x.1 <;> simp [List.filter_cons, h, ih]

/-- The failure count over the indexed candidate list, expressed over
the index range. -/
theorem failCount_enum (o : Nat → CallOutcome) (l : List Forskola) :
    failCount o l.enum =
      ((List.range l.length).filter fun i => (o i).isFail).length := by
  rw [failCount, filter_fst_length (fun i => (o i).isFail) l.enum, List.enum_map_fst]

/-- Guard branch of the run (source line 20): a call while running
returns before doing anything. -/
theorem enrich_noop (env : RunEnv) (st : EnrichmentProgress)
    (h : st.isRunning = true) :
    enrichMissingData env st = { states := [st], events := [], final := st } := by
  simp [enrichMissingData, h]

/-- Fetch-failure branch of the run (source lines 60-63 and 115-117):
both queries run, then the run returns; the `finally` clears the
running flag. -/
theorem enrich_abort (env : RunEnv) (st : EnrichmentProgress)
    (h : st.isRunning = false) (he : (env.error1 || env.error2) = true) :
    enrichMissingData env st =
      { states := [st, startState st, { startState st with isRunning := false }],
        events := [RunEvent.queryMissing, RunEvent.queryStale],
        final := { startState st with isRunning := false } } := by
  simp [enrichMissingData, h, he, startState]

/-- Normal branch of the run: both queries succeed, `total` is
recorded, the batch loop runs and the running flag is cleared. -/
theorem enrich_normal (env : RunEnv) (st : EnrichmentProgress)
    (h : st.isRunning = false) (h1 : env.error1 = false) (h2 : env.error2 = false) :
    enrichMissingData env st =
      { states := st :: startState st :: totalState env st ::
          traceFrom (totalState env st)
            (loopRun env.outcome (fetchedCandidates env)).1 ++
          [{ applyAll (totalState env st)
              (loopRun env.outcome (fetchedCandidates env)).1 with
              isRunning := false }],
        events := RunEvent.queryMissing :: RunEvent.queryStale ::
          (loopRun env.outcome (fetchedCandidates env)).2,
        final := { applyAll (totalState env st)
            (loopRun env.outcome (fetchedCandidates env)).1 with
            isRunning := false } } := by
  simp [enrichMissingData, h, h1, h2, startState, totalState,
    fetchedCandidates, fetchedPreschools]

/-- The final state of a normal run: `total` and `processed` are the
fetched-candidate count, `errors` is the failed-invocation count, the
running flag is cleared. -/
theorem enrich_final_normal (env : RunEnv) (st : EnrichmentProgress)
    (h : st.isRunning = false) (h1 : env.error1 = false) (h2 : env.error2 = false) :
    (enrichMissingData env st).final =
      { total := (fetchedPreschools env).length,
        processed := (fetchedPreschools env).length,
        errors := failCount env.outcome (fetchedCandidates env),
        isRunning := false } := by
  rw [enrich_normal env st h h1 h2]
  rw [show (loopRun env.outcome (fetchedCandidates env)).1 =
    flatUpdates env.outcome (fetchedCandidates env) from loopRun_fst _ _]
  rw [applyAll_flat]
  simp [totalState, startState, fetchedCandidates, List.enum_length]

theorem batchSizes_query_cons (l : List RunEvent) :
    batchSizes (RunEvent.queryMissing :: RunEvent.queryStale :: l) = batchSizes l := by
  simp [batchSizes]

theorem delayCount_query_cons (l : List RunEvent) :
    delayCount (RunEvent.queryMissing :: RunEvent.queryStale :: l) = delayCount l := by
  simp [delayCount]

theorem invokedIds_query_cons (l : List RunEvent) :
    invokedIds (RunEvent.queryMissing :: RunEvent.queryStale :: l) = invokedIds l := by
  simp [invokedIds]

/-- C1 counterexample: in the branch where the enrichment call reports
an error without throwing, the source increments `errors` in one
`setProgress` update and `processed` only in a later one, so a run with
a single reported-error candidate passes through an observation point
with `errors = 1 > processed = 0`, violating `errors ≤ processed`. -/
theorem c1_errors_exceed_processed_between_updates :
    ∃ p ∈ (enrichMissingData envOneReportedError initialProgress).states,
      p.processed < p.errors := by decide

/-- C1 (amended): for every run starting from a state satisfying the
invariant, every observation point satisfies `processed ≤ total` and the
weakened bound `errors ≤ processed + 1`, and the final state satisfies
`errors ≤ processed`.  The original bound `errors ≤ processed` at every
observation point fails only between the error-count increment and the
processed-count increment of the reported-error branch. -/
theorem c1_progress_invariant (env : RunEnv) (st : EnrichmentProgress)
    (hep : st.errors ≤ st.processed) (hpt : st.processed ≤ st.total) :
    (∀ p ∈ (enrichMissingData env st).states,
        p.processed ≤ p.total ∧ p.errors ≤ p.processed + 1) ∧
    (enrichMissingData env st).final.errors ≤
      (enrichMissingData env st).final.processed := by
  by_cases hrun : st.isRunning = true
  · rw [enrich_noop env st hrun]
    constructor
    · intro p hp
      simp only [List.mem_singleton] at hp
      subst hp
      exact ⟨hpt, hep.trans (Nat.le_succ _)⟩
    · exact hep
  · have hrun' : st.isRunning = false := by
      revert hrun; cases st.isRunning <;> simp
    by_cases herr : (env.error1 || env.error2) = true
    · rw [enrich_abort env st hrun' herr]
      constructor
      · intro p hp
        simp only [List.mem_cons, List.not_mem_nil, or_false] at hp
        rcases hp with rfl | rfl | rfl
        · exact ⟨hpt, hep.trans (Nat.le_succ _)⟩
        · refine ⟨?_, ?_⟩ <;> simp [startState]
        · refine ⟨?_, ?_⟩ <;> simp [startState]
      · simp [startState]
    · have herr' : env.error1 = false ∧ env.error2 = false := by
        revert herr; cases env.error1 <;> cases env.error2 <;> simp
      rw [enrich_normal env st hrun' herr'.1 herr'.2]
      have hupds : (loopRun env.outcome (fetchedCandidates env)).1 =
          flatUpdates env.outcome (fetchedCandidates env) := loopRun_fst _ _
      have hlen : (fetchedCandidates env).length = (fetchedPreschools env).length := by
        simp [fetchedCandidates, List.enum_length]
      have hfin : applyAll (totalState env st)
          (flatUpdates env.outcome (fetchedCandidates env)) =
          { totalState env st with
            processed := (totalState env st).processed + (fetchedCandidates env).length,
            errors := (totalState env st).errors +
              failCount env.outcome (fetchedCandidates env) } :=
        applyAll_flat _ _ _
      have hfc : failCount env.outcome (fetchedCandidates env) ≤
          (fetchedCandidates env).length := failCount_le _ _
      constructor
      · intro p hp
        simp only [List.mem_cons, List.mem_append, List.mem_singleton,
          List.not_mem_nil, or_false] at hp
        rcases hp with (rfl | rfl | rfl | hp) | rfl
        · exact ⟨hpt, hep.trans (Nat.le_succ _)⟩
        · refine ⟨?_, ?_⟩ <;> simp [startState]
        · refine ⟨?_, ?_⟩ <;> simp [totalState, startState]
        · rw [hupds] at hp
          refine flatTrace_invariant env.outcome (fetchedCandidates env)
            (totalState env st) ?_ ?_ p hp
          · simp [totalState, startState]
          · simp [totalState, startState, hlen]
        · rw [hupds, hfin]
          refine ⟨?_, ?_⟩ <;> simp [totalState, startState] <;> omega
      · rw [hupds, hfin]
        simp [totalState, startState]
        omega

/-- C1 witness: the amended invariant instantiated on a concrete run
with one reported-error candidate. -/
theorem c1_progress_invariant_witness :
    (∀ p ∈ (enrichMissingData envOneReportedError initialProgress).states,
        p.processed ≤ p.total ∧ p.errors ≤ p.processed + 1) ∧
    (enrichMissingData envOneReportedError initialProgress).final.errors ≤
      (enrichMissingData envOneReportedError initialProgress).final.processed :=
  c1_progress_invariant envOneReportedError initialProgress
    (by decide) (by decide)

/-- C2: for a run over the fetched candidates in which the invocations
at the failing indices fail (reported error or thrown) and the rest
succeed, the final state is `{total := N, processed := N, errors := M,
isRunning := false}` where `N` is the fetched-candidate count and `M`
the number of failing invocations. -/
theorem c2_final_counts (env : RunEnv) (st : EnrichmentProgress)
    (h : st.isRunning = false) (h1 : env.error1 = false) (h2 : env.error2 = false) :
    (enrichMissingData env st).final =
      { total := (fetchedPreschools env).length,
        processed := (fetchedPreschools env).length,
        errors := ((List.range (fetchedPreschools env).length).filter
            fun i => (env.outcome i).isFail).length,
        isRunning := false } := by
  rw [enrich_final_normal env st h h1 h2]
  rw [show fetchedCandidates env = (fetchedPreschools env).enum from rfl,
    failCount_enum]

/-- C2 witness: a concrete run over 4 candidates with failures at
indices 1 (reported error) and 3 (thrown) ends in
`{total := 4, processed := 4, errors := 2, isRunning := false}`. -/
theorem c2_final_counts_witness :
    (enrichMissingData envMixed4 initialProgress).final =
      { total := 4, processed := 4, errors := 2, isRunning := false } := by
  rw [c2_final_counts envMixed4 initialProgress rfl rfl rfl]
  decide

/-- C3: calling the run while the running flag is set is a no-op: the
only observation point is the unchanged state, the final state equals
the starting state, and no event (store query or enrichment invocation)
is dispatched. -/
theorem c3_noop_when_running (env : RunEnv) (st : EnrichmentProgress)
    (h : st.isRunning = true) :
    enrichMissingData env st = { states := [st], events := [], final := st } :=
  enrich_noop env st h

/-- C3 witness: the no-op instantiated on a concrete running state. -/
theorem c3_noop_when_running_witness :
    enrichMissingData envAllSuccess7 runningProgress =
      { states := [runningProgress], events := [], final := runningProgress } :=
  c3_noop_when_running envAllSuccess7 runningProgress rfl

/-- C4: if either candidate-fetch query fails, the run dispatches no
enrichment invocation and ends with `processed = 0`, `errors = 0` and
the running flag cleared; and after any run (normal or aborted) the
running flag is false. -/
theorem c4_fetch_failure_aborts :
    (∀ (env : RunEnv) (st : EnrichmentProgress), st.isRunning = false →
        (env.error1 || env.error2) = true →
        hasInvoke (enrichMissingData env st).events = false ∧
        (enrichMissingData env st).final.processed = 0 ∧
        (enrichMissingData env st).final.errors = 0 ∧
        (enrichMissingData env st).final.isRunning = false) ∧
    (∀ (env : RunEnv) (st : EnrichmentProgress), st.isRunning = false →
        (enrichMissingData env st).final.isRunning = false) := by
  constructor
  · intro env st h he
    rw [enrich_abort env st h he]
    exact ⟨rfl, rfl, rfl, rfl⟩
  · intro env st h
    by_cases herr : (env.error1 || env.error2) = true
    · rw [enrich_abort env st h herr]
    · have herr' : env.error1 = false ∧ env.error2 = false := by
        revert herr; cases env.error1 <;> cases env.error2 <;> simp
      rw [enrich_final_normal env st h herr'.1 herr'.2]

/-- C4 witness: the abort behaviour instantiated on a concrete
environment whose first fetch query fails. -/
theorem c4_fetch_failure_aborts_witness :
    hasInvoke (enrichMissingData envFetchFail initialProgress).events = false ∧
    (enrichMissingData envFetchFail initialProgress).final.processed = 0 ∧
    (enrichMissingData envFetchFail initialProgress).final.errors = 0 ∧
    (enrichMissingData envFetchFail initialProgress).final.isRunning = false :=
  c4_fetch_failure_aborts.1 envFetchFail initialProgress rfl rfl

/-- C5: the run partitions the fetched candidates into consecutive
3-chunks in list order (the chunks concatenate back to the candidate
list, every chunk but the last has size 3, every chunk is nonempty of
size at most 3), announces exactly those batch sizes, emits one delay
per batch except after the last, every delay is the fixed 2000 ms, and
invokes each candidate once in list order. -/
theorem c5_batching (env : RunEnv) (st : EnrichmentProgress)
    (h : st.isRunning = false) (h1 : env.error1 = false) (h2 : env.error2 = false) :
    batchSizes (enrichMissingData env st).events =
        (chunk3 (fetchedCandidates env)).map List.length ∧
    (chunk3 (fetchedCandidates env)).flatten = fetchedCandidates env ∧
    (∀ b ∈ (chunk3 (fetchedCandidates env)).dropLast, b.length = 3) ∧
    (∀ b ∈ chunk3 (fetchedCandidates env), b ≠ [] ∧ b.length ≤ 3) ∧
    delayCount (enrichMissingData env st).events =
        (chunk3 (fetchedCandidates env)).length - 1 ∧
    (∀ ms, RunEvent.delay ms ∈ (enrichMissingData env st).events → ms = 2000) ∧
    invokedIds (enrichMissingData env st).events =
        (fetchedCandidates env).map fun x => x.2.id := by
  rw [enrich_normal env st h h1 h2]
  refine ⟨?_, chunk3_flatten _, chunk3_dropLast_full _, chunk3_mem_bounds _,
    ?_, ?_, ?_⟩
  · show batchSizes (RunEvent.queryMissing :: RunEvent.queryStale ::
        (loopRun env.outcome (fetchedCandidates env)).2) =
      (chunk3 (fetchedCandidates env)).map List.length
    rw [batchSizes_query_cons]
    exact loopRun_batchSizes env.outcome (fetchedCandidates env)
  · show delayCount (RunEvent.queryMissing :: RunEvent.queryStale ::
        (loopRun env.outcome (fetchedCandidates env)).2) =
      (chunk3 (fetchedCandidates env)).length - 1
    rw [delayCount_query_cons]
    exact loopRun_delayCount env.outcome (fetchedCandidates env)
  · intro ms hms
    have hms' : RunEvent.delay ms ∈ (RunEvent.queryMissing ::
        RunEvent.queryStale ::
        (loopRun env.outcome (fetchedCandidates env)).2) := hms
    simp only [List.mem_cons] at hms'
    rcases hms' with hms' | hms' | hms'
    · exact absurd hms' (by simp)
    · exact absurd hms' (by simp)
    · exact loopRun_delay_ms env.outcome (fetchedCandidates env) ms hms'
  · show invokedIds (RunEvent.queryMissing :: RunEvent.queryStale ::
        (loopRun env.outcome (fetchedCandidates env)).2) =
      (fetchedCandidates env).map fun x => x.2.id
    rw [invokedIds_query_cons]
    exact loopRun_invokedIds env.outcome (fetchedCandidates env)

/-- C5 witness: a concrete run with 7 fetched candidates dispatches
exactly the batch sizes [3, 3, 1] and exactly 2 inter-batch delays. -/
theorem c5_batching_witness :
    batchSizes (enrichMissingData envAllSuccess7 initialProgress).events =
      [3, 3, 1] ∧
    delayCount (enrichMissingData envAllSuccess7 initialProgress).events = 2 := by
  have h := c5_batching envAllSuccess7 initialProgress rfl rfl rfl
  refine ⟨h.1.trans (by decide), ?_⟩
  rw [h.2.2.2.2.1]
  decide

/-- C6 (code bug): the staleness query is specified to retrieve the
candidates whose stored enrichment data is more than 7 days old, but the
source filters on membership of `id` in a literal empty list, so the
query selects nothing for any store state; in particular a row with
coordinates and 8-day-old enrichment data is not retrieved. -/
theorem c6_stale_query_selects_nothing :
    (∀ store : List Forskola, queryStaleData store = []) ∧
    queryStaleData [rowStale] = [] ∧
    rowStale.googleDataAgeDays = some 8 := by
  refine ⟨?_, rfl, rfl⟩
  intro store
  rw [queryStaleData,
    show (store.filter fun r =>
        r.latitud.isSome && r.longitud.isSome &&
          (([] : List Nat).contains r.id)) = []
      from List.filter_eq_nil_iff.mpr (by intro r _; simp)]
  rfl

/-- C7 (code bug): the first query is specified to select only
candidates missing enrichment data, but the source's exclusion filter is
over a literal empty id list, so it excludes nothing: a row with
coordinates that already has enrichment data is returned by the
query. -/
theorem c7_missing_query_includes_enriched :
    queryMissingData [rowEnriched] = [rowEnriched] ∧
    rowEnriched.hasGoogleData = true := by
  exact ⟨rfl, rfl⟩

/-- C8: when the stats body does not throw, the returned counts are the
two query counts, the percentage is `round(100 × enriched / total)` when
`total > 0`, and 0 when `total = 0` (the truthiness guard avoids the
division). -/
theorem c8_stats_percentage (env : StatsEnv) (h : env.throws = false) :
    ((env.totalData.getD []).length = 0 →
      (getEnrichmentStats env).percentage = 0) ∧
    (0 < (env.totalData.getD []).length →
      (getEnrichmentStats env).percentage =
        jsRound ((100 * ((env.enrichedData.getD []).length : ℚ)) /
          ((env.totalData.getD []).length : ℚ))) ∧
    (getEnrichmentStats env).total = (env.totalData.getD []).length ∧
    (getEnrichmentStats env).enriched = (env.enrichedData.getD []).length := by
  rw [getEnrichmentStats, if_neg (by simp [h])]
  refine ⟨?_, ?_, rfl, rfl⟩
  · intro ht
    simp [ht]
  · intro ht
    show (if (env.totalData.getD []).length = 0 then (0 : Int)
        else jsRound (((env.enrichedData.getD []).length : ℚ) /
          ((env.totalData.getD []).length : ℚ) * 100)) = _
    rw [if_neg (by omega)]
    congr 1
    ring

/-- C8 witness: with counts total = 4 and enriched = 1 the percentage is
the claimed rounding, and with total = 0 it is 0. -/
theorem c8_stats_percentage_witness :
    0 < ((statsEnvOk.totalData.getD []).length) ∧
    (getEnrichmentStats statsEnvOk).percentage =
      jsRound ((100 * ((statsEnvOk.enrichedData.getD []).length : ℚ)) /
        ((statsEnvOk.totalData.getD []).length : ℚ)) ∧
    (getEnrichmentStats statsEnvZero).percentage = 0 :=
  ⟨by decide,
   (c8_stats_percentage statsEnvOk rfl).2.1 (by decide),
   (c8_stats_percentage statsEnvZero rfl).1 (by decide)⟩

/-- C9 counterexample: when the enriched-count query fails in-band (its
reply carries null data without throwing), the stats call returns
`{total := 5, enriched := 0, percentage := 0}`, not the zero-value
object `{0, 0, 0}`. -/
theorem c9_error_result_not_zero_object :
    statsEnvEnrichedFail.enrichedData = none ∧
    getEnrichmentStats statsEnvEnrichedFail ≠
      { total := 0, enriched := 0, percentage := 0 } := by
  exact ⟨rfl, by decide⟩

/-- C9 (amended): if the stats body throws, the call returns the
zero-value object `{0, 0, 0}`; if a query fails by returning null data
without throwing, the failure is still not propagated and the failing
query's count is 0 (a failing total query also forces percentage 0), but
the other count is unaffected, so the full result is the zero object
only when both counts are zero. -/
theorem c9_stats_failure_handling :
    (∀ env : StatsEnv, env.throws = true →
        getEnrichmentStats env =
          { total := 0, enriched := 0, percentage := 0 }) ∧
    (∀ env : StatsEnv, env.totalData = none →
        (getEnrichmentStats env).total = 0 ∧
        (getEnrichmentStats env).percentage = 0) ∧
    (∀ env : StatsEnv, env.enrichedData = none →
        (getEnrichmentStats env).enriched = 0) := by
  refine ⟨?_, ?_, ?_⟩
  · intro env h
    rw [getEnrichmentStats, if_pos (by simp [h])]
  · intro env h
    by_cases ht : env.throws = true
    · rw [getEnrichmentStats, if_pos (by simp [ht])]
      exact ⟨rfl, rfl⟩
    · have ht' : env.throws = false := by
        revert ht; cases env.throws <;> simp
      rw [getEnrichmentStats, if_neg (by simp [ht']), h]
      exact ⟨rfl, rfl⟩
  · intro env h
    by_cases ht : env.throws = true
    · rw [getEnrichmentStats, if_pos (by simp [ht])]
    · have ht' : env.throws = false := by
        revert ht; cases env.throws <;> simp
      rw [getEnrichmentStats, if_neg (by simp [ht']), h]
      rfl

/-- C9 witness: the amended behaviour instantiated on a thrown failure
and on an in-band enriched-query failure. -/
theorem c9_stats_failure_handling_witness :
    getEnrichmentStats statsEnvThrown =
      { total := 0, enriched := 0, percentage := 0 } ∧
    (getEnrichmentStats statsEnvEnrichedFail).enriched = 0 :=
  ⟨c9_stats_failure_handling.1 statsEnvThrown rfl,
   c9_stats_failure_handling.2.2 statsEnvEnrichedFail rfl⟩

/-- C10: a run aborted by a fetch failure resets `processed` and
`errors` and clears the running flag but leaves `total` at its pre-run
value; in particular after a normal run over N candidates followed by an
aborted run, `total` still reports N, the candidate count of the earlier
run. -/
theorem c10_abort_preserves_total :
    (∀ (env : RunEnv) (st : EnrichmentProgress), st.isRunning = false →
        (env.error1 || env.error2) = true →
        (enrichMissingData env st).final =
          { st with processed := 0, errors := 0, isRunning := false }) ∧
    (∀ (env1 env2 : RunEnv) (st : EnrichmentProgress), st.isRunning = false →
        env1.error1 = false → env1.error2 = false →
        (env2.error1 || env2.error2) = true →
        (enrichMissingData env2 (enrichMissingData env1 st).final).final =
          { total := (fetchedPreschools env1).length, processed := 0,
            errors := 0, isRunning := false }) := by
  have habort : ∀ (env : RunEnv) (st : EnrichmentProgress),
      st.isRunning = false → (env.error1 || env.error2) = true →
      (enrichMissingData env st).final =
        { st with processed := 0, errors := 0, isRunning := false } := by
    intro env st h he
    rw [enrich_abort env st h he]
    rfl
  refine ⟨habort, ?_⟩
  intro env1 env2 st h h1 h2 he
  rw [enrich_final_normal env1 st h h1 h2]
  rw [habort env2 _ rfl he]

/-- C10 witness: a normal 7-candidate run followed by an aborted run
leaves `total = 7`. -/
theorem c10_abort_preserves_total_witness :
    (enrichMissingData envFetchFail
        (enrichMissingData envAllSuccess7 initialProgress).final).final =
      { total := 7, processed := 0, errors := 0, isRunning := false } := by
  rw [c10_abort_preserves_total.2 envAllSuccess7 envFetchFail initialProgress
    rfl rfl rfl rfl]
  decide

end Enrichment
